import Mathlib

/-!
Verification development for the minesweeper inference engine
(`minesweeper.py`: classes `Sentence` and `MinesweeperAI`).

Modelling conventions:
* a board cell is a pair of naturals;
* Python `set` objects are modelled as duplicate-free lists; the list
  order stands in for Python's unspecified set-iteration order, and all
  statements proved below are order-robust (membership, lengths, set
  equality);
* Python `int` is modelled as `Int` (sentence counts can go negative
  under contradictory observations, and the code never guards them);
* methods that assign no field return the state unchanged, mirroring the
  absence of writes in the source;
* `random.choice` is modelled by an explicit index oracle `pick`.
-/

abbrev Cell := Nat × Nat

/-- `Sentence`: a set of cells together with a mine count
(`self.cells`, `self.count`). -/
structure Sentence where
  cells : List Cell
  count : Int
deriving DecidableEq, Repr

/-- The `Sentence(cells, count)` constructor: `set(cells)` deduplicates. -/
def Sentence.of (cs : List Cell) (count : Int) : Sentence :=
  ⟨cs.dedup, count⟩

/-- `Sentence.__eq__`: equal cell sets and equal counts. -/
def Sentence.beq (s t : Sentence) : Bool :=
  s.cells.all (fun c => decide (c ∈ t.cells)) &&
  t.cells.all (fun c => decide (c ∈ s.cells)) &&
  decide (s.count = t.count)

/-- `Sentence.known_mines`: all cells if `len(cells) == count`, else empty. -/
def Sentence.known_mines (s : Sentence) : List Cell :=
  if (s.cells.length : Int) = s.count then s.cells else []

/-- `Sentence.known_safes`: all cells if `count == 0`, else empty. -/
def Sentence.known_safes (s : Sentence) : List Cell :=
  if s.count = 0 then s.cells else []

/-- `Sentence.mark_mine`: remove the cell and decrement the count when
the cell is a member; no-op otherwise. -/
def Sentence.mark_mine (s : Sentence) (c : Cell) : Sentence :=
  if c ∈ s.cells then ⟨s.cells.erase c, s.count - 1⟩ else s

/-- `Sentence.mark_safe`: remove the cell, count unchanged, when the cell
is a member; no-op otherwise. -/
def Sentence.mark_safe (s : Sentence) (c : Cell) : Sentence :=
  if c ∈ s.cells then ⟨s.cells.erase c, s.count⟩ else s

/-- `Sentence.cells.issubset` applied between two sentences' cell sets. -/
def Sentence.issubset (s t : Sentence) : Bool :=
  s.cells.all (fun c => decide (c ∈ t.cells))

/-- The agent state of class `MinesweeperAI`. -/
structure MinesweeperAI where
  height : Nat
  width : Nat
  moves_made : List Cell
  mines : List Cell
  safes : List Cell
  knowledge : List Sentence
deriving Repr

/-- `MinesweeperAI.__init__(height, width)`: all containers empty. -/
def MinesweeperAI.init (height width : Nat) : MinesweeperAI :=
  ⟨height, width, [], [], [], []⟩

/-- `MinesweeperAI.mark_mine`: add to `self.mines`, then propagate to
every sentence in `self.knowledge`. -/
def MinesweeperAI.mark_mine (ai : MinesweeperAI) (cell : Cell) : MinesweeperAI :=
  { ai with
    mines := ai.mines.insert cell
    knowledge := ai.knowledge.map (fun s => s.mark_mine cell) }

/-- `MinesweeperAI.mark_safe`: add to `self.safes`, then propagate to
every sentence in `self.knowledge`. -/
def MinesweeperAI.mark_safe (ai : MinesweeperAI) (cell : Cell) : MinesweeperAI :=
  { ai with
    safes := ai.safes.insert cell
    knowledge := ai.knowledge.map (fun s => s.mark_safe cell) }

/-- The three consecutive integers produced by `range(n - 1, n + 2)`. -/
def intRange3 (n : Int) : List Int :=
  [n - 1, n, n + 1]

/-- The neighbor computation in `add_knowledge`: the 8-connected
neighborhood of `cell`, clipped to the grid, excluding `cell` itself and
any cell already in `safes` or `mines`. -/
def neighborsOf (ai : MinesweeperAI) (cell : Cell) : List Cell :=
  (intRange3 (cell.1 : Int)).flatMap (fun i =>
    (intRange3 (cell.2 : Int)).filterMap (fun j =>
      if (¬ (i = (cell.1 : Int) ∧ j = (cell.2 : Int))) ∧
          0 ≤ i ∧ i < (ai.height : Int) ∧ 0 ≤ j ∧ j < (ai.width : Int) ∧
          (i.toNat, j.toNat) ∉ ai.safes ∧ (i.toNat, j.toNat) ∉ ai.mines
      then some (i.toNat, j.toNat) else none))

/-- `for mine in mines: self.mark_mine(mine)` in `apply_inference`. -/
def markAllMines (ai : MinesweeperAI) (cs : List Cell) : MinesweeperAI :=
  cs.foldl MinesweeperAI.mark_mine ai

/-- `for safe in safes: self.mark_safe(safe)` in `apply_inference`. -/
def markAllSafes (ai : MinesweeperAI) (cs : List Cell) : MinesweeperAI :=
  cs.foldl MinesweeperAI.mark_safe ai

/-- The first loop of `apply_inference`, iterating over the live
`self.knowledge` list by position while `mark_mine` / `mark_safe` mutate
the sentences in place; `fuel` bounds the number of positions visited
(the list's length never changes during this loop). -/
def extractFrom (ai : MinesweeperAI) (i : Nat) : Nat → MinesweeperAI
  | 0 => ai
  | fuel + 1 =>
    match ai.knowledge[i]? with
    | none => ai
    | some s =>
      extractFrom (markAllSafes (markAllMines ai s.known_mines) s.known_safes) (i + 1) fuel

/-- The completed first loop of `apply_inference`. -/
def MinesweeperAI.extractAll (ai : MinesweeperAI) : MinesweeperAI :=
  extractFrom ai 0 ai.knowledge.length

/-- `self.knowledge = [s for s in self.knowledge if len(s.cells) > 0]`
applied after the extraction loop. -/
def MinesweeperAI.prunedK (ai : MinesweeperAI) : List Sentence :=
  ai.extractAll.knowledge.filter (fun s => 0 < s.cells.length)

/-- `Sentence(s2.cells - s1.cells, s2.count - s1.count)` as built by the
subset-inference step. -/
def deriveS (s1 s2 : Sentence) : Sentence :=
  Sentence.of (s2.cells.filter (fun c => !decide (c ∈ s1.cells))) (s2.count - s1.count)

/-- The inner `for s2 in self.knowledge` loop of the subset-inference
step, accumulating `new_knowledge`; the membership guard is checked
against the unmodified `self.knowledge` (`k`). -/
def innerLoop (k : List Sentence) (s1 : Sentence) (acc : List Sentence) (l : List Sentence) : List Sentence :=
  l.foldl (fun acc2 s2 =>
    if !s1.beq s2 && s1.issubset s2 then
      if k.any (fun u => u.beq (deriveS s1 s2)) then acc2 else acc2 ++ [deriveS s1 s2]
    else acc2) acc

/-- The pairwise subset-inference loop of `apply_inference`: for every
ordered pair `(s1, s2)` of non-equal sentences with `s1.cells ⊆ s2.cells`,
derive `Sentence(s2.cells - s1.cells, s2.count - s1.count)` and append it
to `new_knowledge` unless an equal sentence is already in `knowledge`. -/
def subsetPhase (k : List Sentence) : List Sentence :=
  k.foldl (fun acc s1 => innerLoop k s1 acc k) []

/-- `MinesweeperAI.apply_inference`: extraction loop, prune of emptied
sentences, subset inference, then `self.knowledge.extend(new_knowledge)`. -/
def MinesweeperAI.apply_inference (ai : MinesweeperAI) : MinesweeperAI :=
  { ai.extractAll with knowledge := ai.prunedK ++ subsetPhase ai.prunedK }

/-- `MinesweeperAI.add_knowledge(cell, count)`: record the move, mark the
cell safe, build the neighbor sentence, append it, run the inference. -/
def MinesweeperAI.add_knowledge (ai : MinesweeperAI) (cell : Cell) (count : Int) : MinesweeperAI :=
  let ai1 := { ai with moves_made := ai.moves_made.insert cell }
  let ai2 := ai1.mark_safe cell
  let ns := Sentence.of (neighborsOf ai2 cell) count
  MinesweeperAI.apply_inference { ai2 with knowledge := ai2.knowledge ++ [ns] }

/-- `MinesweeperAI.make_safe_move`: first cell of `safes` not in
`moves_made`, or `None`; the method writes no field, so the state
component of the result is the input state. -/
def MinesweeperAI.make_safe_move (ai : MinesweeperAI) : Option Cell × MinesweeperAI :=
  (ai.safes.find? (fun c => !decide (c ∈ ai.moves_made)), ai)

/-- The `available_moves` list of `make_random_move`: all grid cells not
in `moves_made` and not in `mines`, in row-major order. -/
def MinesweeperAI.available_moves (ai : MinesweeperAI) : List Cell :=
  (List.range ai.height).flatMap (fun i =>
    (List.range ai.width).filterMap (fun j =>
      if (i, j) ∉ ai.moves_made ∧ (i, j) ∉ ai.mines then some (i, j) else none))

/-- `MinesweeperAI.make_random_move`: `random.choice(available_moves)`
with the random draw modelled by the index oracle `pick`, or `None` when
no move is available; no field is written. -/
def MinesweeperAI.make_random_move (ai : MinesweeperAI) (pick : Nat) : Option Cell × MinesweeperAI :=
  (ai.available_moves[pick % ai.available_moves.length]?, ai)

/-- A sequence of `add_knowledge` (observe) calls. -/
def observeAll (ai : MinesweeperAI) (obs : List (Cell × Int)) : MinesweeperAI :=
  obs.foldl (fun a p => a.add_knowledge p.1 p.2) ai

/-- An observation sequence is admissible when no observed cell is
already a known mine at the moment it is observed. -/
def okObs : MinesweeperAI → List (Cell × Int) → Bool
  | _, [] => true
  | ai, p :: rest => !decide (p.1 ∈ ai.mines) && okObs (ai.add_knowledge p.1 p.2) rest

/-- The public mutating operations of the agent. -/
inductive AgentOp where
  | observe : Cell → Int → AgentOp
  | markMine : Cell → AgentOp
  | markSafe : Cell → AgentOp

/-- Run one public operation. -/
def applyOp (ai : MinesweeperAI) : AgentOp → MinesweeperAI
  | .observe c n => ai.add_knowledge c n
  | .markMine c => ai.mark_mine c
  | .markSafe c => ai.mark_safe c

/-- Run a sequence of public operations. -/
def applyOps (ai : MinesweeperAI) (ops : List AgentOp) : MinesweeperAI :=
  ops.foldl applyOp ai

/-! ### Basic facts about `Sentence` operations -/

lemma known_mines_subset (s : Sentence) : ∀ x ∈ s.known_mines, x ∈ s.cells := by
  intro x hx
  unfold Sentence.known_mines at hx
  split at hx
  · exact hx
  · simp at hx

lemma known_safes_subset (s : Sentence) : ∀ x ∈ s.known_safes, x ∈ s.cells := by
  intro x hx
  unfold Sentence.known_safes at hx
  split at hx
  · exact hx
  · simp at hx

lemma known_mines_or_safes_nil (s : Sentence) : s.known_mines = [] ∨ s.known_safes = [] := by
  unfold Sentence.known_mines Sentence.known_safes
  by_cases h : s.count = 0
  · by_cases hc : s.cells = []
    · left
      split <;> simp [hc]
    · left
      rw [if_neg]
      intro hlen
      exact hc (List.length_eq_zero.mp (by exact_mod_cast hlen.trans h))
  · right
    rw [if_neg h]

/-- C7: `known_mines()` returns exactly the cell set when
`len(cells) == count`, and the empty set otherwise. In the embedding the
method is a pure function of the sentence, mirroring the absence of any
field write in the source, so it cannot change `cells` or `count`. -/
theorem claim_C7 (s : Sentence) :
    ((s.cells.length : Int) = s.count → s.known_mines = s.cells) ∧
    ((s.cells.length : Int) ≠ s.count → s.known_mines = []) ∧
    (s.known_mines ≠ [] → (s.cells.length : Int) = s.count) := by
  refine ⟨fun h => ?_, fun h => ?_, fun h => ?_⟩
  · simp [Sentence.known_mines, h]
  · simp [Sentence.known_mines, h]
  · by_contra hne
    exact h (by simp [Sentence.known_mines, hne])

theorem claim_C7_witness :
    (Sentence.mk [((0 : Nat), (1 : Nat)), (2, 2)] 2).known_mines = [((0 : Nat), (1 : Nat)), (2, 2)] :=
  (claim_C7 ⟨[(0, 1), (2, 2)], 2⟩).1 (by decide)

/-- C8: `Sentence.mark_mine(cell)` removes a member cell (its cell list
shrinks by one and no longer contains the cell) and decrements the count
by exactly one; on a non-member it is a no-op. The cell list of a Python
set is duplicate-free, whence the `Nodup` hypothesis. -/
theorem claim_C8 (s : Sentence) (c : Cell) (hnd : s.cells.Nodup) :
    (c ∈ s.cells →
      (s.mark_mine c).cells.length + 1 = s.cells.length ∧
      c ∉ (s.mark_mine c).cells ∧
      (s.mark_mine c).count = s.count - 1) ∧
    (c ∉ s.cells → s.mark_mine c = s) := by
  constructor
  · intro hc
    unfold Sentence.mark_mine
    rw [if_pos hc]
    refine ⟨?_, ?_, rfl⟩
    · have h1 : (s.cells.erase c).length = s.cells.length - 1 := List.length_erase_of_mem hc
      have h2 : 0 < s.cells.length := List.length_pos.mpr (List.ne_nil_of_mem hc)
      simp only [h1]
      omega
    · exact fun h => hnd.not_mem_erase h
  · intro hc
    unfold Sentence.mark_mine
    rw [if_neg hc]

theorem claim_C8_witness :
    ((Sentence.mk [((0 : Nat), (1 : Nat)), (1, 1), (2, 1)] 1).mark_mine (1, 1)).cells.length + 1 = 3 ∧
    ((1 : Nat), (1 : Nat)) ∉ ((Sentence.mk [((0 : Nat), (1 : Nat)), (1, 1), (2, 1)] 1).mark_mine (1, 1)).cells ∧
    ((Sentence.mk [((0 : Nat), (1 : Nat)), (1, 1), (2, 1)] 1).mark_mine (1, 1)).count = 0 :=
  (claim_C8 ⟨[(0, 1), (1, 1), (2, 1)], 1⟩ (1, 1) (by decide)).1 (by decide)

/-- C9: `make_safe_move()` returns a member of `safes − moves_made`
whenever one exists, and the `None` signal exactly when that difference
is empty. -/
theorem claim_C9 (ai : MinesweeperAI) :
    (∀ c, (ai.make_safe_move).1 = some c → c ∈ ai.safes ∧ c ∉ ai.moves_made) ∧
    ((ai.make_safe_move).1 = none ↔ ∀ c ∈ ai.safes, c ∈ ai.moves_made) := by
  constructor
  · intro c h
    refine ⟨List.mem_of_find?_eq_some h, ?_⟩
    have hp := List.find?_some h
    simpa using hp
  · rw [show (ai.make_safe_move).1 = ai.safes.find? (fun c => !decide (c ∈ ai.moves_made)) from rfl,
      List.find?_eq_none]
    simp

theorem claim_C9_witness :
    ((1 : Nat), (1 : Nat)) ∈ (MinesweeperAI.mk 3 3 [(0, 0)] [] [(0, 0), (1, 1)] []).safes ∧
    ((1 : Nat), (1 : Nat)) ∉ (MinesweeperAI.mk 3 3 [(0, 0)] [] [(0, 0), (1, 1)] []).moves_made :=
  (claim_C9 (MinesweeperAI.mk 3 3 [(0, 0)] [] [(0, 0), (1, 1)] [])).1 (1, 1) (by decide)

lemma mem_available_moves (ai : MinesweeperAI) (c : Cell) (h : c ∈ ai.available_moves) :
    c ∉ ai.moves_made ∧ c ∉ ai.mines := by
  unfold MinesweeperAI.available_moves at h
  simp only [List.mem_flatMap, List.mem_filterMap, List.mem_range] at h
  obtain ⟨i, _, j, _, hj⟩ := h
  split at hj
  · obtain rfl : (i, j) = c := by simpa using hj
    assumption
  · simp at hj

/-- C10: `make_safe_move` and `make_random_move` write no field of the
agent: the state they return is the input state, so `moves_made`,
`safes`, `mines` and `knowledge` are unchanged, and in particular the
returned move (which was not in `moves_made` before the call) is still
not in `moves_made` afterwards. -/
theorem claim_C10 (ai : MinesweeperAI) (pick : Nat) :
    (ai.make_safe_move).2 = ai ∧
    (ai.make_random_move pick).2 = ai ∧
    (∀ c, (ai.make_safe_move).1 = some c → c ∉ ((ai.make_safe_move).2).moves_made) ∧
    (∀ c, (ai.make_random_move pick).1 = some c → c ∉ ((ai.make_random_move pick).2).moves_made) := by
  refine ⟨rfl, rfl, fun c h => ?_, fun c h => ?_⟩
  · have hp := List.find?_some h
    simpa using hp
  · have hmem : c ∈ ai.available_moves := List.getElem?_mem h
    exact (mem_available_moves ai c hmem).1

theorem claim_C10_witness :
    ((MinesweeperAI.mk 2 2 [(0, 0)] [(1, 1)] [] []).make_random_move 5).2 =
      MinesweeperAI.mk 2 2 [(0, 0)] [(1, 1)] [] [] ∧
    ((1 : Nat), (0 : Nat)) ∉
      (((MinesweeperAI.mk 2 2 [(0, 0)] [(1, 1)] [] []).make_random_move 5).2).moves_made :=
  ⟨(claim_C10 (MinesweeperAI.mk 2 2 [(0, 0)] [(1, 1)] [] []) 5).2.1,
    (claim_C10 (MinesweeperAI.mk 2 2 [(0, 0)] [(1, 1)] [] []) 5).2.2.2 (1, 0) (by decide)⟩

/-! ### Concrete agents used to refute the claims as stated -/

/-- Agent holding exactly the two sentences of the subset-inference
scenario: `S1 = {(0,0),(0,1)} = 1` and `S2 = {(0,0),(0,1),(0,2)} = 2`. -/
def aiC1 : MinesweeperAI :=
  { MinesweeperAI.init 8 8 with
    knowledge := [⟨[(0, 0), (0, 1)], 1⟩, ⟨[(0, 0), (0, 1), (0, 2)], 2⟩] }

/-- Agent holding two disjoint subset pairs that both derive `{(0,2)}=1`. -/
def aiC2 : MinesweeperAI :=
  { MinesweeperAI.init 8 8 with
    knowledge := [⟨[(0, 0), (0, 1)], 1⟩, ⟨[(0, 0), (0, 1), (0, 2)], 2⟩,
                  ⟨[(1, 0), (1, 1)], 1⟩, ⟨[(1, 0), (1, 1), (0, 2)], 2⟩] }

/-- A reachable 5×5 agent (two observations) whose knowledge holds the
underived full sentence `{(2,0),(2,1)} = 2` while `(2,1)` — a neighbor of
`(2,2)` — is in neither `safes` nor `mines`. -/
def aiC6pre : MinesweeperAI :=
  ((MinesweeperAI.init 5 5).add_knowledge (0, 0) 1).add_knowledge (1, 0) 3

/-- C1 counterexample: with knowledge `{(0,0),(0,1)}=1` and
`{(0,0),(0,1),(0,2)}=2` ((0,0),(0,1),(0,2) distinct, in bounds, in
neither `safes` nor `mines`), one run of `apply_inference` does derive
`{(0,2)}=1` into knowledge, but `(0,2)` does not enter `mines`. -/
theorem claim_C1_counterexample :
    ((0 : Nat), (2 : Nat)) ∉ aiC1.safes ∧
    ((0 : Nat), (2 : Nat)) ∉ aiC1.mines ∧
    aiC1.apply_inference.knowledge =
      [⟨[(0, 0), (0, 1)], 1⟩, ⟨[(0, 0), (0, 1), (0, 2)], 2⟩, ⟨[(0, 2)], 1⟩] ∧
    ((0 : Nat), (2 : Nat)) ∉ aiC1.apply_inference.mines := by
  decide

/-- C2 counterexample: in `aiC2` the run derives `{(0,2)}=1` twice (once
from each subset pair); the duplicate is only checked against the
pre-existing knowledge, so the returned knowledge holds two
logically-equal sentences added by the same run. -/
theorem claim_C2_counterexample :
    (aiC2.knowledge.filter (fun s => s.beq ⟨[(0, 2)], 1⟩)).length = 0 ∧
    (aiC2.apply_inference.knowledge.filter (fun s => s.beq ⟨[(0, 2)], 1⟩)).length = 2 := by
  decide

/-- C3 counterexample: on a 2×2 grid, `observe((0,0), 3)` makes all three
neighbors known mines; a subsequent `observe((1,1), 0)` marks the known
mine `(1,1)` safe, so `safes ∩ mines ≠ ∅`. -/
theorem claim_C3_counterexample :
    ((1 : Nat), (1 : Nat)) ∈ (observeAll (MinesweeperAI.init 2 2) [((0, 0), 3), ((1, 1), 0)]).safes ∧
    ((1 : Nat), (1 : Nat)) ∈ (observeAll (MinesweeperAI.init 2 2) [((0, 0), 3), ((1, 1), 0)]).mines := by
  decide

/-- C5 counterexample: observing the out-of-bounds cell `(10,10)` on an
8×8 grid signals nothing — `add_knowledge` silently records the cell as a
made move and as safe (with an empty neighbor sentence, pruned away). -/
theorem claim_C5_counterexample :
    ((MinesweeperAI.init 8 8).add_knowledge (10, 10) 0).moves_made = [(10, 10)] ∧
    ((MinesweeperAI.init 8 8).add_knowledge (10, 10) 0).safes = [(10, 10)] ∧
    ((MinesweeperAI.init 8 8).add_knowledge (10, 10) 0).knowledge = [] := by
  decide

/-- C6 counterexample: in the reachable agent `aiC6pre` every one of the
8 neighbors of `(2,2)` is outside `safes` and `mines`, yet
`observe((2,2), 0)` leaves neighbor `(1,2)` outside `safes` (and turns
neighbor `(2,1)` into a mine): the pending full sentence
`{(2,0),(2,1)}=2` fires first and corrupts the zero-count sentence. -/
theorem claim_C6_counterexample :
    aiC6pre.height = 5 ∧ aiC6pre.width = 5 ∧
    aiC6pre.safes = [(1, 0), (0, 0)] ∧ aiC6pre.mines = [] ∧
    ((1 : Nat), (2 : Nat)) ∉ (aiC6pre.add_knowledge (2, 2) 0).safes ∧
    ((2 : Nat), (1 : Nat)) ∈ (aiC6pre.add_knowledge (2, 2) 0).mines := by
  decide

/-! ### Characterization of the subset-inference phase -/

lemma innerLoop_mem (k : List Sentence) (s1 : Sentence) :
    ∀ (l acc : List Sentence) (t : Sentence), t ∈ innerLoop k s1 acc l →
      t ∈ acc ∨ ∃ s2 ∈ l, t = deriveS s1 s2 ∧ (k.any (fun u => u.beq t)) = false := by
  intro l
  induction l with
  | nil => intro acc t ht; exact Or.inl ht
  | cons s2 rest ih =>
    intro acc t ht
    have ht' : t ∈ innerLoop k s1
        (if !s1.beq s2 && s1.issubset s2 then
          if k.any (fun u => u.beq (deriveS s1 s2)) then acc else acc ++ [deriveS s1 s2]
        else acc) rest := ht
    rcases ih _ t ht' with hacc | ⟨s2', hs2', rfl, hany⟩
    · by_cases h1 : (!s1.beq s2 && s1.issubset s2) = true
      · rw [if_pos h1] at hacc
        by_cases h2 : (k.any fun u => u.beq (deriveS s1 s2)) = true
        · rw [if_pos h2] at hacc
          exact Or.inl hacc
        · rw [if_neg h2] at hacc
          rcases List.mem_append.mp hacc with h | h
          · exact Or.inl h
          · have heq : t = deriveS s1 s2 := by simpa using h
            subst heq
            exact Or.inr ⟨s2, List.mem_cons_self s2 rest, rfl, by simpa using h2⟩
      · rw [if_neg h1] at hacc
        exact Or.inl hacc
    · exact Or.inr ⟨s2', List.mem_cons_of_mem s2 hs2', rfl, hany⟩

lemma subsetPhase_mem (k : List Sentence) :
    ∀ (l acc : List Sentence) (t : Sentence),
      t ∈ l.foldl (fun acc s1 => innerLoop k s1 acc k) acc →
      t ∈ acc ∨ ∃ s1 ∈ l, ∃ s2 ∈ k, t = deriveS s1 s2 ∧ (k.any (fun u => u.beq t)) = false := by
  intro l
  induction l with
  | nil => intro acc t ht; exact Or.inl ht
  | cons s1 rest ih =>
    intro acc t ht
    rcases ih _ t ht with hacc | ⟨s1', hs1', s2, hs2, rfl, hany⟩
    · rcases innerLoop_mem k s1 k acc t hacc with h | ⟨s2, hs2, rfl, hany⟩
      · exact Or.inl h
      · exact Or.inr ⟨s1, List.mem_cons_self s1 rest, s2, hs2, rfl, hany⟩
    · exact Or.inr ⟨s1', List.mem_cons_of_mem s1 hs1', s2, hs2, rfl, hany⟩

lemma subsetPhase_spec (k : List Sentence) (t : Sentence) (ht : t ∈ subsetPhase k) :
    ∃ s1 ∈ k, ∃ s2 ∈ k, t = deriveS s1 s2 ∧ (k.any (fun u => u.beq t)) = false := by
  rcases subsetPhase_mem k k [] t ht with h | h
  · simp at h
  · exact h

/-- C2, as the code implements it: `apply_inference` extends the pruned
knowledge with the derived sentences, and each derived sentence was added
only because no logically-equal sentence (equal cell set and equal count)
was already present in `knowledge`; the derived sentences of the same run
are, however, not checked against each other (see the counterexample). -/
theorem claim_C2_amended (ai : MinesweeperAI) :
    ai.apply_inference.knowledge = ai.prunedK ++ subsetPhase ai.prunedK ∧
    ∀ t ∈ subsetPhase ai.prunedK, ∀ u ∈ ai.prunedK, u.beq t = false := by
  refine ⟨rfl, fun t ht u hu => ?_⟩
  obtain ⟨s1, _, s2, _, _, hany⟩ := subsetPhase_spec _ t ht
  simpa using List.any_eq_false.mp hany u hu

theorem claim_C2_amended_witness :
    Sentence.beq ⟨[(0, 0), (0, 1)], 1⟩ ⟨[(0, 2)], 1⟩ = false :=
  (claim_C2_amended aiC1).2 ⟨[(0, 2)], 1⟩ (by decide) ⟨[(0, 0), (0, 1)], 1⟩ (by decide)

/-! ### Invariants: sentence cells are disjoint from the known sets -/

/-- A well-formed sentence relative to the global sets: duplicate-free
cells, none of which is already known safe or known mine. -/
def SInv (safes mines : List Cell) (s : Sentence) : Prop :=
  s.cells.Nodup ∧ ∀ x ∈ s.cells, x ∉ safes ∧ x ∉ mines

/-- Every sentence of the knowledge base is well formed. -/
def StateInv (ai : MinesweeperAI) : Prop :=
  ∀ s ∈ ai.knowledge, SInv ai.safes ai.mines s

/-- The safe set and the mine set are disjoint. -/
def DisjSM (ai : MinesweeperAI) : Prop :=
  ∀ x ∈ ai.safes, x ∉ ai.mines

lemma mark_mine_cells_sub (s : Sentence) (c : Cell) :
    ∀ x ∈ (s.mark_mine c).cells, x ∈ s.cells := by
  intro x hx
  unfold Sentence.mark_mine at hx
  split at hx
  · exact List.mem_of_mem_erase hx
  · exact hx

lemma mark_safe_cells_sub (s : Sentence) (c : Cell) :
    ∀ x ∈ (s.mark_safe c).cells, x ∈ s.cells := by
  intro x hx
  unfold Sentence.mark_safe at hx
  split at hx
  · exact List.mem_of_mem_erase hx
  · exact hx

lemma mark_mine_cells_nodup (s : Sentence) (c : Cell) (h : s.cells.Nodup) :
    (s.mark_mine c).cells.Nodup := by
  unfold Sentence.mark_mine
  split
  · exact h.erase c
  · exact h

lemma mark_safe_cells_nodup (s : Sentence) (c : Cell) (h : s.cells.Nodup) :
    (s.mark_safe c).cells.Nodup := by
  unfold Sentence.mark_safe
  split
  · exact h.erase c
  · exact h

lemma mark_mine_not_mem_self (s : Sentence) (c : Cell) (h : s.cells.Nodup) :
    c ∉ (s.mark_mine c).cells := by
  unfold Sentence.mark_mine
  split
  · exact h.not_mem_erase
  · assumption

lemma mark_safe_not_mem_self (s : Sentence) (c : Cell) (h : s.cells.Nodup) :
    c ∉ (s.mark_safe c).cells := by
  unfold Sentence.mark_safe
  split
  · exact h.not_mem_erase
  · assumption

lemma stateInv_mark_mine (ai : MinesweeperAI) (c : Cell) (h : StateInv ai) :
    StateInv (ai.mark_mine c) := by
  intro s hs
  rw [show (ai.mark_mine c).knowledge = ai.knowledge.map (fun s => s.mark_mine c) from rfl,
    List.mem_map] at hs
  obtain ⟨s0, hs0, rfl⟩ := hs
  obtain ⟨hnd, hdisj⟩ := h s0 hs0
  refine ⟨mark_mine_cells_nodup s0 c hnd, fun x hx => ?_⟩
  have hx0 := mark_mine_cells_sub s0 c x hx
  refine ⟨(hdisj x hx0).1, fun hxm => ?_⟩
  rw [show (ai.mark_mine c).mines = ai.mines.insert c from rfl, List.mem_insert_iff] at hxm
  rcases hxm with rfl | hxm
  · exact mark_mine_not_mem_self s0 x hnd hx
  · exact (hdisj x hx0).2 hxm

lemma stateInv_mark_safe (ai : MinesweeperAI) (c : Cell) (h : StateInv ai) :
    StateInv (ai.mark_safe c) := by
  intro s hs
  rw [show (ai.mark_safe c).knowledge = ai.knowledge.map (fun s => s.mark_safe c) from rfl,
    List.mem_map] at hs
  obtain ⟨s0, hs0, rfl⟩ := hs
  obtain ⟨hnd, hdisj⟩ := h s0 hs0
  refine ⟨mark_safe_cells_nodup s0 c hnd, fun x hx => ?_⟩
  have hx0 := mark_safe_cells_sub s0 c x hx
  refine ⟨fun hxs => ?_, (hdisj x hx0).2⟩
  rw [show (ai.mark_safe c).safes = ai.safes.insert c from rfl, List.mem_insert_iff] at hxs
  rcases hxs with rfl | hxs
  · exact mark_safe_not_mem_self s0 x hnd hx
  · exact (hdisj x hx0).1 hxs

lemma stateInv_markAllMines : ∀ (cs : List Cell) (ai : MinesweeperAI),
    StateInv ai → StateInv (markAllMines ai cs) := by
  intro cs
  induction cs with
  | nil => exact fun ai h => h
  | cons c rest ih => exact fun ai h => ih (ai.mark_mine c) (stateInv_mark_mine ai c h)

lemma stateInv_markAllSafes : ∀ (cs : List Cell) (ai : MinesweeperAI),
    StateInv ai → StateInv (markAllSafes ai cs) := by
  intro cs
  induction cs with
  | nil => exact fun ai h => h
  | cons c rest ih => exact fun ai h => ih (ai.mark_safe c) (stateInv_mark_safe ai c h)

lemma stateInv_extractFrom : ∀ (fuel i : Nat) (ai : MinesweeperAI),
    StateInv ai → StateInv (extractFrom ai i fuel) := by
  intro fuel
  induction fuel with
  | zero => exact fun i ai h => h
  | succ f ih =>
    intro i ai h
    simp only [extractFrom]
    cases hk : ai.knowledge[i]? with
    | none => exact h
    | some s => exact ih _ _ (stateInv_markAllSafes _ _ (stateInv_markAllMines _ _ h))

lemma disj_mark_mine (ai : MinesweeperAI) (c : Cell) (h : DisjSM ai) (hc : c ∉ ai.safes) :
    DisjSM (ai.mark_mine c) := by
  intro x hx hm
  rw [show (ai.mark_mine c).mines = ai.mines.insert c from rfl, List.mem_insert_iff] at hm
  rcases hm with rfl | hm
  · exact hc hx
  · exact h x hx hm

lemma disj_mark_safe (ai : MinesweeperAI) (c : Cell) (h : DisjSM ai) (hc : c ∉ ai.mines) :
    DisjSM (ai.mark_safe c) := by
  intro x hx hm
  rw [show (ai.mark_safe c).safes = ai.safes.insert c from rfl, List.mem_insert_iff] at hx
  rcases hx with rfl | hx
  · exact hc hm
  · exact h x hx hm

lemma disj_markAllMines : ∀ (cs : List Cell) (ai : MinesweeperAI),
    DisjSM ai → (∀ c ∈ cs, c ∉ ai.safes) → DisjSM (markAllMines ai cs) := by
  intro cs
  induction cs with
  | nil => exact fun ai h _ => h
  | cons c rest ih =>
    intro ai h hcs
    exact ih (ai.mark_mine c) (disj_mark_mine ai c h (hcs c (List.mem_cons_self c rest)))
      (fun c' hc' => hcs c' (List.mem_cons_of_mem c hc'))

lemma disj_markAllSafes : ∀ (cs : List Cell) (ai : MinesweeperAI),
    DisjSM ai → (∀ c ∈ cs, c ∉ ai.mines) → DisjSM (markAllSafes ai cs) := by
  intro cs
  induction cs with
  | nil => exact fun ai h _ => h
  | cons c rest ih =>
    intro ai h hcs
    exact ih (ai.mark_safe c) (disj_mark_safe ai c h (hcs c (List.mem_cons_self c rest)))
      (fun c' hc' => hcs c' (List.mem_cons_of_mem c hc'))

lemma disj_extractFrom : ∀ (fuel i : Nat) (ai : MinesweeperAI),
    StateInv ai → DisjSM ai → DisjSM (extractFrom ai i fuel) := by
  intro fuel
  induction fuel with
  | zero => exact fun i ai _ h => h
  | succ f ih =>
    intro i ai hinv h
    simp only [extractFrom]
    cases hk : ai.knowledge[i]? with
    | none => exact h
    | some s =>
      have hsk : s ∈ ai.knowledge := List.getElem?_mem hk
      obtain ⟨hnd, hdisj⟩ := hinv s hsk
      refine ih _ _ (stateInv_markAllSafes _ _ (stateInv_markAllMines _ _ hinv)) ?_
      rcases known_mines_or_safes_nil s with hnil | hnil
      · rw [hnil]
        exact disj_markAllSafes _ _ h
          (fun c hc => (hdisj c (known_safes_subset s c hc)).2)
      · rw [hnil]
        exact disj_markAllMines _ _ h
          (fun c hc => (hdisj c (known_mines_subset s c hc)).1)

lemma stateInv_extractAll (ai : MinesweeperAI) (h : StateInv ai) : StateInv ai.extractAll :=
  stateInv_extractFrom ai.knowledge.length 0 ai h

lemma prunedK_sinv (ai : MinesweeperAI) (h : StateInv ai) :
    ∀ u ∈ ai.prunedK, SInv ai.extractAll.safes ai.extractAll.mines u := by
  intro u hu
  exact stateInv_extractAll ai h u (List.mem_of_mem_filter hu)

lemma stateInv_apply_inference (ai : MinesweeperAI) (h : StateInv ai) :
    StateInv ai.apply_inference := by
  intro s hs
  rcases List.mem_append.mp hs with hs | hs
  · exact prunedK_sinv ai h s hs
  · obtain ⟨s1, _, s2, hs2, rfl, _⟩ := subsetPhase_spec _ s hs
    obtain ⟨hnd, hd⟩ := prunedK_sinv ai h s2 hs2
    refine ⟨List.nodup_dedup _, fun x hx => ?_⟩
    have hx2 : x ∈ s2.cells :=
      List.mem_of_mem_filter (List.mem_dedup.mp hx)
    exact hd x hx2

lemma disj_apply_inference (ai : MinesweeperAI) (h1 : StateInv ai) (h2 : DisjSM ai) :
    DisjSM ai.apply_inference :=
  disj_extractFrom ai.knowledge.length 0 ai h1 h2

lemma neighborsOf_not_known (ai : MinesweeperAI) (cell : Cell) :
    ∀ x ∈ neighborsOf ai cell, x ∉ ai.safes ∧ x ∉ ai.mines := by
  intro x hx
  unfold neighborsOf at hx
  simp only [List.mem_flatMap, List.mem_filterMap] at hx
  obtain ⟨i, _, j, _, hj⟩ := hx
  split at hj
  · next hcond =>
      obtain rfl : (i.toNat, j.toNat) = x := by simpa using hj
      exact ⟨hcond.2.2.2.2.2.1, hcond.2.2.2.2.2.2⟩
  · simp at hj

lemma stateInv_preState (ai : MinesweeperAI) (cell : Cell) (count : Int) (h : StateInv ai) :
    StateInv
      { (MinesweeperAI.mark_safe { ai with moves_made := ai.moves_made.insert cell } cell) with
        knowledge :=
          (MinesweeperAI.mark_safe { ai with moves_made := ai.moves_made.insert cell } cell).knowledge ++
            [Sentence.of
              (neighborsOf (MinesweeperAI.mark_safe { ai with moves_made := ai.moves_made.insert cell } cell) cell)
              count] } := by
  intro s hs
  have h2 : StateInv (MinesweeperAI.mark_safe { ai with moves_made := ai.moves_made.insert cell } cell) :=
    stateInv_mark_safe _ cell h
  rcases List.mem_append.mp hs with hs | hs
  · exact h2 s hs
  · obtain rfl : s = Sentence.of
        (neighborsOf (MinesweeperAI.mark_safe { ai with moves_made := ai.moves_made.insert cell } cell) cell)
        count := by simpa using hs
    refine ⟨List.nodup_dedup _, fun x hx => ?_⟩
    exact neighborsOf_not_known _ cell x (List.mem_dedup.mp hx)

lemma stateInv_add_knowledge (ai : MinesweeperAI) (cell : Cell) (count : Int) (h : StateInv ai) :
    StateInv (ai.add_knowledge cell count) :=
  stateInv_apply_inference _ (stateInv_preState ai cell count h)

lemma disj_add_knowledge (ai : MinesweeperAI) (cell : Cell) (count : Int)
    (h1 : StateInv ai) (h2 : DisjSM ai) (hc : cell ∉ ai.mines) :
    DisjSM (ai.add_knowledge cell count) := by
  refine disj_apply_inference _ (stateInv_preState ai cell count h1) ?_
  exact disj_mark_safe { ai with moves_made := ai.moves_made.insert cell } cell h2 hc

lemma stateInv_init (h w : Nat) : StateInv (MinesweeperAI.init h w) := by
  intro s hs
  simp [MinesweeperAI.init] at hs

lemma disj_init (h w : Nat) : DisjSM (MinesweeperAI.init h w) := by
  intro x hx
  simp [MinesweeperAI.init] at hx

lemma inv_observeAll : ∀ (obs : List (Cell × Int)) (ai : MinesweeperAI),
    StateInv ai → DisjSM ai → okObs ai obs = true →
    StateInv (observeAll ai obs) ∧ DisjSM (observeAll ai obs) := by
  intro obs
  induction obs with
  | nil => exact fun ai h1 h2 _ => ⟨h1, h2⟩
  | cons p rest ih =>
    intro ai h1 h2 hok
    simp only [okObs, Bool.and_eq_true] at hok
    obtain ⟨hc, hrest⟩ := hok
    have hc' : p.1 ∉ ai.mines := by simpa using hc
    exact ih (ai.add_knowledge p.1 p.2)
      (stateInv_add_knowledge ai p.1 p.2 h1)
      (disj_add_knowledge ai p.1 p.2 h1 h2 hc')
      hrest

/-- C3, amended: after any sequence of `observe` calls from a fresh agent
in which no observed cell is already a known mine at the moment it is
observed, `safes ∩ mines = ∅` (without that proviso the counterexample
applies). -/
theorem claim_C3_amended (h w : Nat) (obs : List (Cell × Int))
    (hok : okObs (MinesweeperAI.init h w) obs = true) :
    ∀ c ∈ (observeAll (MinesweeperAI.init h w) obs).safes,
      c ∉ (observeAll (MinesweeperAI.init h w) obs).mines :=
  (inv_observeAll obs (MinesweeperAI.init h w) (stateInv_init h w) (disj_init h w) hok).2

theorem claim_C3_amended_witness :
    ((0 : Nat), (0 : Nat)) ∉ (observeAll (MinesweeperAI.init 2 2) [((0, 0), 1)]).mines :=
  claim_C3_amended 2 2 [((0, 0), 1)] (by decide) (0, 0) (by decide)

lemma stateInv_applyOp (ai : MinesweeperAI) (op : AgentOp) (h : StateInv ai) :
    StateInv (applyOp ai op) := by
  cases op with
  | observe c n => exact stateInv_add_knowledge ai c n h
  | markMine c => exact stateInv_mark_mine ai c h
  | markSafe c => exact stateInv_mark_safe ai c h

lemma stateInv_applyOps : ∀ (ops : List AgentOp) (ai : MinesweeperAI),
    StateInv ai → StateInv (applyOps ai ops) := by
  intro ops
  induction ops with
  | nil => exact fun ai h => h
  | cons op rest ih => exact fun ai h => ih (applyOp ai op) (stateInv_applyOp ai op h)

/-- C4: starting from a fresh agent, after any sequence of public
operations (`add_knowledge`, `mark_mine`, `mark_safe`) every cell lying
in `safes` or in `mines` is absent from the cell set of every sentence in
`knowledge` — propagation is eager. -/
theorem claim_C4 (h w : Nat) (ops : List AgentOp) :
    ∀ s ∈ (applyOps (MinesweeperAI.init h w) ops).knowledge, ∀ c : Cell,
      (c ∈ (applyOps (MinesweeperAI.init h w) ops).safes ∨
        c ∈ (applyOps (MinesweeperAI.init h w) ops).mines) →
      c ∉ s.cells := by
  intro s hs c hc hmem
  obtain ⟨-, hd⟩ := stateInv_applyOps ops (MinesweeperAI.init h w) (stateInv_init h w) s hs
  rcases hc with hc | hc
  · exact (hd c hmem).1 hc
  · exact (hd c hmem).2 hc

theorem claim_C4_witness :
    ((0 : Nat), (0 : Nat)) ∉ (Sentence.mk [((0 : Nat), (1 : Nat)), (1, 0), (1, 1)] 1).cells :=
  claim_C4 4 4 [AgentOp.observe (0, 0) 1] ⟨[(0, 1), (1, 0), (1, 1)], 1⟩ (by decide)
    (0, 0) (Or.inl (by decide))

/-! ### Frame and monotonicity facts used for the observe contract -/

lemma moves_markAllMines : ∀ (cs : List Cell) (ai : MinesweeperAI),
    (markAllMines ai cs).moves_made = ai.moves_made := by
  intro cs
  induction cs with
  | nil => exact fun ai => rfl
  | cons c rest ih => exact fun ai => ih (ai.mark_mine c)

lemma moves_markAllSafes : ∀ (cs : List Cell) (ai : MinesweeperAI),
    (markAllSafes ai cs).moves_made = ai.moves_made := by
  intro cs
  induction cs with
  | nil => exact fun ai => rfl
  | cons c rest ih => exact fun ai => ih (ai.mark_safe c)

lemma moves_extractFrom : ∀ (fuel i : Nat) (ai : MinesweeperAI),
    (extractFrom ai i fuel).moves_made = ai.moves_made := by
  intro fuel
  induction fuel with
  | zero => exact fun i ai => rfl
  | succ f ih =>
    intro i ai
    simp only [extractFrom]
    cases hk : ai.knowledge[i]? with
    | none => rfl
    | some s =>
      rw [ih, moves_markAllSafes, moves_markAllMines]

lemma moves_apply_inference (ai : MinesweeperAI) :
    ai.apply_inference.moves_made = ai.moves_made :=
  moves_extractFrom ai.knowledge.length 0 ai

lemma safes_sub_markAllMines : ∀ (cs : List Cell) (ai : MinesweeperAI) (x : Cell),
    x ∈ ai.safes → x ∈ (markAllMines ai cs).safes := by
  intro cs
  induction cs with
  | nil => exact fun ai x hx => hx
  | cons c rest ih => exact fun ai x hx => ih (ai.mark_mine c) x hx

lemma safes_sub_markAllSafes : ∀ (cs : List Cell) (ai : MinesweeperAI) (x : Cell),
    x ∈ ai.safes → x ∈ (markAllSafes ai cs).safes := by
  intro cs
  induction cs with
  | nil => exact fun ai x hx => hx
  | cons c rest ih =>
    exact fun ai x hx => ih (ai.mark_safe c) x (List.mem_insert_of_mem hx)

lemma safes_sub_extractFrom : ∀ (fuel i : Nat) (ai : MinesweeperAI) (x : Cell),
    x ∈ ai.safes → x ∈ (extractFrom ai i fuel).safes := by
  intro fuel
  induction fuel with
  | zero => exact fun i ai x hx => hx
  | succ f ih =>
    intro i ai x hx
    simp only [extractFrom]
    cases hk : ai.knowledge[i]? with
    | none => exact hx
    | some s =>
      exact ih _ _ x (safes_sub_markAllSafes _ _ x (safes_sub_markAllMines _ _ x hx))

lemma safes_sub_apply_inference (ai : MinesweeperAI) (x : Cell) (hx : x ∈ ai.safes) :
    x ∈ ai.apply_inference.safes :=
  safes_sub_extractFrom ai.knowledge.length 0 ai x hx

/-- C5, as the code behaves: `add_knowledge` performs no bounds check and
raises no error; for every cell — in bounds or not — it silently records
the cell in `moves_made` and `safes` (the neighbor sentence being clipped
to the grid, empty when no neighbor is in bounds). -/
theorem claim_C5_amended (ai : MinesweeperAI) (cell : Cell) (count : Int) :
    cell ∈ (ai.add_knowledge cell count).moves_made ∧
    cell ∈ (ai.add_knowledge cell count).safes := by
  constructor
  · have h1 : (ai.add_knowledge cell count).moves_made = ai.moves_made.insert cell := by
      simp only [MinesweeperAI.add_knowledge]
      rw [moves_apply_inference]
      rfl
    rw [h1]
    exact List.mem_insert_self cell ai.moves_made
  · simp only [MinesweeperAI.add_knowledge]
    apply safes_sub_apply_inference
    exact List.mem_insert_self cell ai.safes

/-! ### The zero-count observation at (2,2) -/

/-- The eight in-bounds neighbors of `(2,2)` in row-major order. -/
def neighbors22 : List Cell :=
  [(1, 1), (1, 2), (1, 3), (2, 1), (2, 3), (3, 1), (3, 2), (3, 3)]

lemma neighborsOf_at_22 (ai : MinesweeperAI) (hh : 5 ≤ ai.height) (hw : 5 ≤ ai.width)
    (hfree : ∀ n ∈ neighbors22, n ∉ ai.safes ∧ n ∉ ai.mines) :
    neighborsOf ai (2, 2) = neighbors22 := by
  have h1 : (1 : Int) < (ai.height : Int) := by exact_mod_cast lt_of_lt_of_le (by norm_num) hh
  have h2 : (2 : Int) < (ai.height : Int) := by exact_mod_cast lt_of_lt_of_le (by norm_num) hh
  have h3 : (3 : Int) < (ai.height : Int) := by exact_mod_cast lt_of_lt_of_le (by norm_num) hh
  have w1 : (1 : Int) < (ai.width : Int) := by exact_mod_cast lt_of_lt_of_le (by norm_num) hw
  have w2 : (2 : Int) < (ai.width : Int) := by exact_mod_cast lt_of_lt_of_le (by norm_num) hw
  have w3 : (3 : Int) < (ai.width : Int) := by exact_mod_cast lt_of_lt_of_le (by norm_num) hw
  have f11 : (1 : Cell) ∉ ai.safes ∧ (1 : Cell) ∉ ai.mines := hfree (1, 1) (by decide)
  have f12 := hfree (1, 2) (by decide)
  have f13 := hfree (1, 3) (by decide)
  have f21 := hfree (2, 1) (by decide)
  have f23 := hfree (2, 3) (by decide)
  have f31 := hfree (3, 1) (by decide)
  have f32 := hfree (3, 2) (by decide)
  have f33 := hfree (3, 3) (by decide)
  simp only [neighborsOf, intRange3]
  simp [List.flatMap_cons, List.flatMap_nil, List.filterMap_cons, List.filterMap_nil,
    f11.1, f11.2, f12.1, f12.2, f13.1, f13.2, f21.1, f21.2, f23.1, f23.2,
    f31.1, f31.2, f32.1, f32.2, f33.1, f33.2, h1, h2, h3, w1, w2, w3]
  rfl

lemma mark_mine_knowledge_pres (ai : MinesweeperAI) (c : Cell) (K : List Sentence) (N : List Cell)
    (hk : ai.knowledge = K ++ [⟨N, 0⟩]) (hc : c ∉ N) :
    (ai.mark_mine c).knowledge = (K.map (fun s => s.mark_mine c)) ++ [⟨N, 0⟩] := by
  rw [show (ai.mark_mine c).knowledge = ai.knowledge.map (fun s => s.mark_mine c) from rfl, hk,
    List.map_append]
  congr 1
  simp [Sentence.mark_mine, hc]

lemma mark_safe_knowledge_pres (ai : MinesweeperAI) (c : Cell) (K : List Sentence) (N : List Cell)
    (hk : ai.knowledge = K ++ [⟨N, 0⟩]) (hc : c ∉ N) :
    (ai.mark_safe c).knowledge = (K.map (fun s => s.mark_safe c)) ++ [⟨N, 0⟩] := by
  rw [show (ai.mark_safe c).knowledge = ai.knowledge.map (fun s => s.mark_safe c) from rfl, hk,
    List.map_append]
  congr 1
  simp [Sentence.mark_safe, hc]

lemma markAllMines_knowledge_pres : ∀ (cs : List Cell) (ai : MinesweeperAI) (K : List Sentence) (N : List Cell),
    ai.knowledge = K ++ [⟨N, 0⟩] →
    (∀ s ∈ K, ∀ n ∈ N, n ∉ s.cells) →
    (∀ c ∈ cs, c ∉ N) →
    ∃ K', (markAllMines ai cs).knowledge = K' ++ [⟨N, 0⟩] ∧ K'.length = K.length ∧
      (∀ s ∈ K', ∀ n ∈ N, n ∉ s.cells) := by
  intro cs
  induction cs with
  | nil => exact fun ai K N hk hd _ => ⟨K, hk, rfl, hd⟩
  | cons c rest ih =>
    intro ai K N hk hd hcs
    have hc : c ∉ N := hcs c (List.mem_cons_self c rest)
    have hd' : ∀ s ∈ K.map (fun s => s.mark_mine c), ∀ n ∈ N, n ∉ s.cells := by
      intro s hs n hn hmem
      rw [List.mem_map] at hs
      obtain ⟨s0, hs0, rfl⟩ := hs
      exact hd s0 hs0 n hn (mark_mine_cells_sub s0 c n hmem)
    obtain ⟨K', hk', hlen, hd''⟩ := ih (ai.mark_mine c) _ N
      (mark_mine_knowledge_pres ai c K N hk hc) hd'
      (fun c' hc' => hcs c' (List.mem_cons_of_mem c hc'))
    exact ⟨K', hk', by rw [hlen, List.length_map], hd''⟩

lemma markAllSafes_knowledge_pres : ∀ (cs : List Cell) (ai : MinesweeperAI) (K : List Sentence) (N : List Cell),
    ai.knowledge = K ++ [⟨N, 0⟩] →
    (∀ s ∈ K, ∀ n ∈ N, n ∉ s.cells) →
    (∀ c ∈ cs, c ∉ N) →
    ∃ K', (markAllSafes ai cs).knowledge = K' ++ [⟨N, 0⟩] ∧ K'.length = K.length ∧
      (∀ s ∈ K', ∀ n ∈ N, n ∉ s.cells) := by
  intro cs
  induction cs with
  | nil => exact fun ai K N hk hd _ => ⟨K, hk, rfl, hd⟩
  | cons c rest ih =>
    intro ai K N hk hd hcs
    have hc : c ∉ N := hcs c (List.mem_cons_self c rest)
    have hd' : ∀ s ∈ K.map (fun s => s.mark_safe c), ∀ n ∈ N, n ∉ s.cells := by
      intro s hs n hn hmem
      rw [List.mem_map] at hs
      obtain ⟨s0, hs0, rfl⟩ := hs
      exact hd s0 hs0 n hn (mark_safe_cells_sub s0 c n hmem)
    obtain ⟨K', hk', hlen, hd''⟩ := ih (ai.mark_safe c) _ N
      (mark_safe_knowledge_pres ai c K N hk hc) hd'
      (fun c' hc' => hcs c' (List.mem_cons_of_mem c hc'))
    exact ⟨K', hk', by rw [hlen, List.length_map], hd''⟩

lemma markAllSafes_mem_safes : ∀ (cs : List Cell) (ai : MinesweeperAI),
    ∀ c ∈ cs, c ∈ (markAllSafes ai cs).safes := by
  intro cs
  induction cs with
  | nil =>
    intro ai c hc
    simp at hc
  | cons c0 rest ih =>
    intro ai c hc
    rcases List.mem_cons.mp hc with rfl | hc
    · exact safes_sub_markAllSafes rest (ai.mark_safe c) c (List.mem_insert_self c _)
    · exact ih (ai.mark_safe c0) c hc

lemma extract_last_zero : ∀ (fuel i : Nat) (ai : MinesweeperAI) (K : List Sentence) (N : List Cell),
    ai.knowledge = K ++ [⟨N, 0⟩] →
    (∀ s ∈ K, ∀ n ∈ N, n ∉ s.cells) →
    i + fuel = K.length + 1 →
    i ≤ K.length →
    ∀ n ∈ N, n ∈ (extractFrom ai i fuel).safes := by
  intro fuel
  induction fuel with
  | zero =>
    intro i ai K N hk hd hif hi n hn
    exfalso
    omega
  | succ f ih =>
    intro i ai K N hk hd hif hi n hn
    simp only [extractFrom]
    by_cases hlt : i < K.length
    · have hget : ai.knowledge[i]? = some K[i] := by
        rw [hk, List.getElem?_append_left hlt]
        exact List.getElem?_eq_getElem hlt
      rw [hget]
      have hKi : K[i] ∈ K := List.getElem_mem hlt
      have hum : ∀ c ∈ (K[i]).known_mines, c ∉ N :=
        fun c hc hcN => hd _ hKi c hcN (known_mines_subset _ c hc)
      have hus : ∀ c ∈ (K[i]).known_safes, c ∉ N :=
        fun c hc hcN => hd _ hKi c hcN (known_safes_subset _ c hc)
      obtain ⟨K1, hk1, hlen1, hd1⟩ :=
        markAllMines_knowledge_pres (K[i]).known_mines ai K N hk hd hum
      obtain ⟨K2, hk2, hlen2, hd2⟩ :=
        markAllSafes_knowledge_pres (K[i]).known_safes _ K1 N hk1 hd1 hus
      exact ih (i + 1) _ K2 N hk2 hd2 (by omega) (by omega) n hn
    · have hieq : i = K.length := by omega
      have hf0 : f = 0 := by omega
      subst hieq
      subst hf0
      have hget : ai.knowledge[K.length]? = some ⟨N, 0⟩ := by
        rw [hk]
        exact List.getElem?_concat_length K ⟨N, 0⟩
      rw [hget]
      show n ∈ (markAllSafes (markAllMines ai (Sentence.mk N 0).known_mines)
        (Sentence.mk N 0).known_safes).safes
      have hks : (Sentence.mk N 0).known_safes = N := by simp [Sentence.known_safes]
      rw [hks]
      exact markAllSafes_mem_safes N _ n hn

/-- C6, amended: on a grid of height and width at least 5,
`observe((2,2), 0)` marks all 8 neighbors of `(2,2)` safe provided the
neighbors are unknown (in neither `safes` nor `mines`) and, additionally,
no sentence of the current knowledge mentions any of them; without the
extra proviso a pending full sentence can turn a neighbor into a mine
during the same pass (see the counterexample). -/
theorem claim_C6_amended (ai : MinesweeperAI) (hh : 5 ≤ ai.height) (hw : 5 ≤ ai.width)
    (hfree : ∀ n ∈ neighbors22, n ∉ ai.safes ∧ n ∉ ai.mines)
    (hknow : ∀ s ∈ ai.knowledge, ∀ n ∈ neighbors22, n ∉ s.cells) :
    ∀ n ∈ neighbors22, n ∈ (ai.add_knowledge (2, 2) 0).safes := by
  intro n hn
  simp only [MinesweeperAI.add_knowledge]
  set ms := MinesweeperAI.mark_safe { ai with moves_made := ai.moves_made.insert (2, 2) } (2, 2) with hms
  have hfree2 : ∀ m ∈ neighbors22, m ∉ ms.safes ∧ m ∉ ms.mines := by
    intro m hm
    refine ⟨fun hmem => ?_, (hfree m hm).2⟩
    rw [show ms.safes = ai.safes.insert (2, 2) from rfl, List.mem_insert_iff] at hmem
    rcases hmem with rfl | hmem
    · exact absurd hm (by decide)
    · exact (hfree m hm).1 hmem
  have hd2 : ∀ s ∈ ms.knowledge, ∀ m ∈ neighbors22, m ∉ s.cells := by
    intro s hs m hm hmem
    rw [show ms.knowledge = ai.knowledge.map (fun s => s.mark_safe (2, 2)) from rfl,
      List.mem_map] at hs
    obtain ⟨s0, hs0, rfl⟩ := hs
    exact hknow s0 hs0 m hm (mark_safe_cells_sub s0 (2, 2) m hmem)
  have hnb : neighborsOf ms (2, 2) = neighbors22 := neighborsOf_at_22 ms hh hw hfree2
  rw [hnb, show Sentence.of neighbors22 0 = Sentence.mk neighbors22 0 from rfl]
  exact extract_last_zero _ 0 _ ms.knowledge neighbors22 rfl hd2 (by simp) (by simp) n hn

theorem claim_C6_amended_witness :
    ((1 : Nat), (1 : Nat)) ∈ ((MinesweeperAI.init 5 5).add_knowledge (2, 2) 0).safes :=
  claim_C6_amended (MinesweeperAI.init 5 5) (by decide) (by decide) (by decide) (by decide)
    (1, 1) (by decide)

lemma extractFrom_no_op : ∀ (fuel i : Nat) (ai : MinesweeperAI),
    (∀ s ∈ ai.knowledge, s.known_mines = [] ∧ s.known_safes = []) →
    extractFrom ai i fuel = ai := by
  intro fuel
  induction fuel with
  | zero => exact fun i ai _ => rfl
  | succ f ih =>
    intro i ai h
    simp only [extractFrom]
    cases hk : ai.knowledge[i]? with
    | none => rfl
    | some s =>
      show extractFrom (markAllSafes (markAllMines ai s.known_mines) s.known_safes) (i + 1) f = ai
      obtain ⟨h1, h2⟩ := h s (List.getElem?_mem hk)
      rw [h1, h2]
      exact ih (i + 1) ai h

lemma apply_inference_no_extract (ai : MinesweeperAI)
    (h : ∀ s ∈ ai.knowledge, s.known_mines = [] ∧ s.known_safes = []) :
    ai.apply_inference =
      { ai with
        knowledge := ai.knowledge.filter (fun s => 0 < s.cells.length) ++
          subsetPhase (ai.knowledge.filter (fun s => 0 < s.cells.length)) } := by
  unfold MinesweeperAI.apply_inference MinesweeperAI.prunedK MinesweeperAI.extractAll
  rw [extractFrom_no_op ai.knowledge.length 0 ai h]

lemma mines_sub_markAllMines : ∀ (cs : List Cell) (ai : MinesweeperAI) (x : Cell),
    x ∈ ai.mines → x ∈ (markAllMines ai cs).mines := by
  intro cs
  induction cs with
  | nil => exact fun ai x hx => hx
  | cons c rest ih =>
    exact fun ai x hx => ih (ai.mark_mine c) x (List.mem_insert_of_mem hx)

lemma markAllMines_mem_mines : ∀ (cs : List Cell) (ai : MinesweeperAI),
    ∀ c ∈ cs, c ∈ (markAllMines ai cs).mines := by
  intro cs
  induction cs with
  | nil =>
    intro ai c hc
    simp at hc
  | cons c0 rest ih =>
    intro ai c hc
    rcases List.mem_cons.mp hc with rfl | hc
    · exact mines_sub_markAllMines rest (ai.mark_mine c) c (List.mem_insert_self c _)
    · exact ih (ai.mark_mine c0) c hc

lemma markAllSafes_mines_eq : ∀ (cs : List Cell) (ai : MinesweeperAI),
    (markAllSafes ai cs).mines = ai.mines := by
  intro cs
  induction cs with
  | nil => exact fun ai => rfl
  | cons c rest ih => exact fun ai => ih (ai.mark_safe c)

lemma extract_marks_last : ∀ (fuel i : Nat) (ai : MinesweeperAI) (K : List Sentence) (t : Sentence),
    ai.knowledge = K ++ [t] →
    (∀ s ∈ K, s.known_mines = [] ∧ s.known_safes = []) →
    i + fuel = K.length + 1 →
    i ≤ K.length →
    ∀ c ∈ t.known_mines, c ∈ (extractFrom ai i fuel).mines := by
  intro fuel
  induction fuel with
  | zero =>
    intro i ai K t hk hpre hif hi c hc
    exfalso
    omega
  | succ f ih =>
    intro i ai K t hk hpre hif hi c hc
    simp only [extractFrom]
    by_cases hlt : i < K.length
    · have hget : ai.knowledge[i]? = some K[i] := by
        rw [hk, List.getElem?_append_left hlt]
        exact List.getElem?_eq_getElem hlt
      rw [hget]
      show c ∈ (extractFrom (markAllSafes (markAllMines ai (K[i]).known_mines)
        (K[i]).known_safes) (i + 1) f).mines
      obtain ⟨h1, h2⟩ := hpre K[i] (List.getElem_mem hlt)
      rw [h1, h2]
      exact ih (i + 1) ai K t hk hpre (by omega) (by omega) c hc
    · have hieq : i = K.length := by omega
      have hf0 : f = 0 := by omega
      subst hieq
      subst hf0
      have hget : ai.knowledge[K.length]? = some t := by
        rw [hk]
        exact List.getElem?_concat_length K t
      rw [hget]
      show c ∈ (markAllSafes (markAllMines ai t.known_mines) t.known_safes).mines
      rw [markAllSafes_mines_eq]
      exact markAllMines_mem_mines t.known_mines ai c hc

/-- C1, amended: with knowledge `S1 = {(0,0),(0,1)} = 1` and
`S2 = {(0,0),(0,1),(0,2)} = 2`, a single run of `apply_inference` derives
and stores the sentence `{(0,2)} = 1` but does not yet mark `(0,2)`: the
subset step runs after the certainty-extraction step, so `(0,2)` enters
`mines` only on the next run of the closure (for instance on the next
`observe`). -/
theorem claim_C1_amended (ai : MinesweeperAI)
    (hk : ai.knowledge = [⟨[(0, 0), (0, 1)], 1⟩, ⟨[(0, 0), (0, 1), (0, 2)], 2⟩])
    (hm : ((0 : Nat), (2 : Nat)) ∉ ai.mines) :
    (⟨[(0, 2)], 1⟩ : Sentence) ∈ ai.apply_inference.knowledge ∧
    ((0 : Nat), (2 : Nat)) ∉ ai.apply_inference.mines ∧
    ((0 : Nat), (2 : Nat)) ∈ ai.apply_inference.apply_inference.mines := by
  have hnoop : ∀ s ∈ ai.knowledge, s.known_mines = [] ∧ s.known_safes = [] := by
    rw [hk]
    decide
  have e1 : ai.apply_inference =
      { ai with
        knowledge := [⟨[(0, 0), (0, 1)], 1⟩, ⟨[(0, 0), (0, 1), (0, 2)], 2⟩, ⟨[(0, 2)], 1⟩] } := by
    rw [apply_inference_no_extract ai hnoop, hk]
    have h2 : ([⟨[(0, 0), (0, 1)], 1⟩, ⟨[(0, 0), (0, 1), (0, 2)], 2⟩] : List Sentence).filter
          (fun s => 0 < s.cells.length) ++
        subsetPhase (([⟨[(0, 0), (0, 1)], 1⟩, ⟨[(0, 0), (0, 1), (0, 2)], 2⟩] : List Sentence).filter
          (fun s => 0 < s.cells.length)) =
        [⟨[(0, 0), (0, 1)], 1⟩, ⟨[(0, 0), (0, 1), (0, 2)], 2⟩, ⟨[(0, 2)], 1⟩] := by
      decide
    rw [h2]
  have hk2 : ai.apply_inference.knowledge =
      [⟨[(0, 0), (0, 1)], 1⟩, ⟨[(0, 0), (0, 1), (0, 2)], 2⟩, ⟨[(0, 2)], 1⟩] := by
    rw [e1]
  refine ⟨?_, ?_, ?_⟩
  · rw [hk2]
    decide
  · rw [e1]
    exact hm
  · have hmE : ((ai.apply_inference).apply_inference).mines =
        (extractFrom ai.apply_inference 0 ai.apply_inference.knowledge.length).mines := rfl
    rw [hmE]
    exact extract_marks_last _ 0 _
      [⟨[(0, 0), (0, 1)], 1⟩, ⟨[(0, 0), (0, 1), (0, 2)], 2⟩] ⟨[(0, 2)], 1⟩
      hk2 (by decide) (by simp [hk2]) (by omega) (0, 2) (by decide)

theorem claim_C1_amended_witness :
    (⟨[(0, 2)], 1⟩ : Sentence) ∈ aiC1.apply_inference.knowledge ∧
    ((0 : Nat), (2 : Nat)) ∉ aiC1.apply_inference.mines ∧
    ((0 : Nat), (2 : Nat)) ∈ aiC1.apply_inference.apply_inference.mines :=
  claim_C1_amended aiC1 rfl (by decide)
